import Mathlib

/-!
# Workout Log Service — shallow embedding

A shallow embedding of the workout-log HTTP service (`src/index.js`): a CRUD
façade over one Postgres table `workout_logs`, plus two read-only aggregation
endpoints.  The table is modelled as a list of rows together with the SERIAL
counter; every handler becomes a pure function from (store, request) to
(HTTP result, store).  SQL `ORDER BY` clauses are modelled by `insertionSort`
under explicit lexicographic relations; `DISTINCT ON (exercise)` keeps the
first row per distinct exercise of the sorted output.
-/

/-- One row of `workout_logs`.  The SQL value of every column other than the
keys is nullable (`Option`); the `NOT NULL` constraints on `date` and
`exercise` are a property of reachable states, proved below, not of the type. -/
structure Row where
  id : Nat
  date : Option String
  exercise : Option String
  weight_kg : Option Int
  reps : Option Int
  note : Option String
  created_at : Nat
deriving DecidableEq, Repr

/-- The table plus the SERIAL sequence for `id`. -/
structure Store where
  rows : List Row
  nextId : Nat
deriving DecidableEq, Repr

/-- A JSON request body: any subset of the five data fields
(`req.body` destructured; an absent or `null` JSON field is `none`). -/
structure Body where
  date : Option String
  exercise : Option String
  weight_kg : Option Int
  reps : Option Int
  note : Option String
deriving DecidableEq, Repr

/-- JS falsiness of an optional string field (`!date`): absent, `null`,
or the empty string. -/
def falsyStr (o : Option String) : Bool :=
  match o with
  | none => true
  | some s => s = ""

/-- SQL `COALESCE(new, old)` on nullable values (the JS side already turned
`undefined` into `null` via `?? null`). -/
def coalesce {α : Type} (new old : Option α) : Option α :=
  match new with
  | some v => some v
  | none => old

/-- The `SET` clause of the UPDATE statement: each data column is
`COALESCE(request value, stored value)`; `id` and `created_at` untouched. -/
def patchRow (b : Body) (r : Row) : Row :=
  { r with
    date := coalesce b.date r.date
    exercise := coalesce b.exercise r.exercise
    weight_kg := coalesce b.weight_kg r.weight_kg
    reps := coalesce b.reps r.reps
    note := coalesce b.note r.note }

/-- `POST /api/workouts`: reject with 400 if `date` or `exercise` is falsy,
otherwise `INSERT ... RETURNING *` — the store assigns `id` (SERIAL) and
`created_at` (`CURRENT_TIMESTAMP`, passed in as `now`).  Result is
(status, returned record) and the new store. -/
def createWorkout (s : Store) (b : Body) (now : Nat) : (Nat × Option Row) × Store :=
  if falsyStr b.date || falsyStr b.exercise then
    ((400, none), s)
  else
    let r : Row :=
      { id := s.nextId, date := b.date, exercise := b.exercise,
        weight_kg := b.weight_kg, reps := b.reps, note := b.note,
        created_at := now }
    ((201, some r), { rows := s.rows ++ [r], nextId := s.nextId + 1 })

/-- `UPDATE ... WHERE id = $6 RETURNING *`: patch every row whose id matches
(the id parameter reaches the store as an integer), return the first returned
row or 404 when none matched. -/
def updateWorkout (s : Store) (i : Int) (b : Body) : (Nat × Option Row) × Store :=
  let newRows := s.rows.map (fun r => if (r.id : Int) = i then patchRow b r else r)
  match newRows.find? (fun r => (r.id : Int) = i) with
  | some r => ((200, some r), { s with rows := newRows })
  | none => ((404, none), s)

/-- `DELETE FROM workout_logs WHERE id = $1`: result is (status, ok-flag) —
`(200, {ok:true})` when a row was deleted, 404 when `rowCount` is zero. -/
def deleteWorkout (s : Store) (i : Int) : (Nat × Bool) × Store :=
  if s.rows.any (fun r => (r.id : Int) = i) then
    ((200, true), { s with rows := s.rows.filter (fun r => (r.id : Int) ≠ i) })
  else
    ((404, false), s)

/-- Sort key for the `date` column: Postgres orders `DESC NULLS FIRST`, so a
NULL date is the largest key.  A DATE value is ordered as its ISO-8601 text,
i.e. lexicographically by character. -/
def dateK (r : Row) : WithTop (List Char) :=
  match r.date with
  | none => ⊤
  | some d => (d.toList : WithTop (List Char))

/-- Sort key for the `weight_kg` column (`DESC NULLS FIRST`, as for `dateK`;
the `WHERE weight_kg IS NOT NULL` filters make the NULL case unreachable). -/
def wK (r : Row) : WithTop Int :=
  match r.weight_kg with
  | none => ⊤
  | some w => (w : WithTop Int)

/-- Sort key for the `exercise` column: ascending with `NULLS LAST`, so a
NULL exercise is again the largest key; text is ordered lexicographically by
character. -/
def exK (r : Row) : WithTop (List Char) :=
  match r.exercise with
  | none => ⊤
  | some e => (e.toList : WithTop (List Char))

/-- `ORDER BY f DESC, <tail>`: `a` precedes `b` when `a`'s key is larger, or
the keys tie and the remaining columns order them. -/
def byKeyDesc {α κ : Type} [LinearOrder κ] (f : α → κ) (t : α → α → Prop)
    (a b : α) : Prop :=
  f b < f a ∨ (f a = f b ∧ t a b)

/-- `ORDER BY f ASC, <tail>`. -/
def byKeyAsc {α κ : Type} [LinearOrder κ] (f : α → κ) (t : α → α → Prop)
    (a b : α) : Prop :=
  f a < f b ∨ (f a = f b ∧ t a b)

/-- The empty tail of an `ORDER BY` list: everything ties. -/
def trivRel {α : Type} (_ _ : α) : Prop := True

instance {α : Type} : DecidableRel (@trivRel α) := fun _ _ => .isTrue trivial

instance {α : Type} : IsTotal α trivRel := ⟨fun _ _ => .inl trivial⟩

instance {α : Type} : IsTrans α trivRel := ⟨fun _ _ _ _h _h2 => trivial⟩

instance {α : Type} : IsRefl α trivRel := ⟨fun _ => trivial⟩

instance {α κ : Type} [LinearOrder κ] {f : α → κ} {t : α → α → Prop}
    [DecidableRel t] : DecidableRel (byKeyDesc f t) := fun _a _b =>
  inferInstanceAs (Decidable (_ ∨ _))

instance {α κ : Type} [LinearOrder κ] {f : α → κ} {t : α → α → Prop}
    [DecidableRel t] : DecidableRel (byKeyAsc f t) := fun _a _b =>
  inferInstanceAs (Decidable (_ ∨ _))

instance {α κ : Type} [LinearOrder κ] {f : α → κ} {t : α → α → Prop}
    [IsTotal α t] : IsTotal α (byKeyDesc f t) :=
  ⟨fun a b => by
    rcases lt_trichotomy (f a) (f b) with h | h | h
    · exact Or.inr (Or.inl h)
    · rcases IsTotal.total (r := t) a b with ht | ht
      · exact Or.inl (Or.inr ⟨h, ht⟩)
      · exact Or.inr (Or.inr ⟨h.symm, ht⟩)
    · exact Or.inl (Or.inl h)⟩

instance {α κ : Type} [LinearOrder κ] {f : α → κ} {t : α → α → Prop}
    [IsTrans α t] : IsTrans α (byKeyDesc f t) :=
  ⟨fun a b c hab hbc => by
    rcases hab with h1 | ⟨e1, t1⟩
    · rcases hbc with h2 | ⟨e2, t2⟩
      · exact Or.inl (h2.trans h1)
      · exact Or.inl (e2 ▸ h1)
    · rcases hbc with h2 | ⟨e2, t2⟩
      · exact Or.inl (e1 ▸ h2)
      · exact Or.inr ⟨e1.trans e2, IsTrans.trans (r := t) a b c t1 t2⟩⟩

instance {α κ : Type} [LinearOrder κ] {f : α → κ} {t : α → α → Prop}
    [IsRefl α t] : IsRefl α (byKeyDesc f t) :=
  ⟨fun a => Or.inr ⟨rfl, IsRefl.refl (r := t) a⟩⟩

instance {α κ : Type} [LinearOrder κ] {f : α → κ} {t : α → α → Prop}
    [IsTotal α t] : IsTotal α (byKeyAsc f t) :=
  ⟨fun a b => by
    rcases lt_trichotomy (f a) (f b) with h | h | h
    · exact Or.inl (Or.inl h)
    · rcases IsTotal.total (r := t) a b with ht | ht
      · exact Or.inl (Or.inr ⟨h, ht⟩)
      · exact Or.inr (Or.inr ⟨h.symm, ht⟩)
    · exact Or.inr (Or.inl h)⟩

instance {α κ : Type} [LinearOrder κ] {f : α → κ} {t : α → α → Prop}
    [IsTrans α t] : IsTrans α (byKeyAsc f t) :=
  ⟨fun a b c hab hbc => by
    rcases hab with h1 | ⟨e1, t1⟩
    · rcases hbc with h2 | ⟨e2, t2⟩
      · exact Or.inl (h1.trans h2)
      · exact Or.inl (e2 ▸ h1)
    · rcases hbc with h2 | ⟨e2, t2⟩
      · exact Or.inl (e1 ▸ h2)
      · exact Or.inr ⟨e1.trans e2, IsTrans.trans (r := t) a b c t1 t2⟩⟩

instance {α κ : Type} [LinearOrder κ] {f : α → κ} {t : α → α → Prop}
    [IsRefl α t] : IsRefl α (byKeyAsc f t) :=
  ⟨fun a => Or.inr ⟨rfl, IsRefl.refl (r := t) a⟩⟩

/-- `ORDER BY date DESC, id DESC` of the read-all endpoint. -/
def readRel : Row → Row → Prop :=
  byKeyDesc dateK (byKeyDesc (fun r => r.id) trivRel)

/-- `ORDER BY weight_kg DESC, date DESC, id DESC` of the two bests
endpoints. -/
def histRel : Row → Row → Prop :=
  byKeyDesc wK (byKeyDesc dateK (byKeyDesc (fun r => r.id) trivRel))

/-- `ORDER BY exercise, weight_kg DESC, date DESC, id DESC` of the
personal-bests query. -/
def bestsRel : Row → Row → Prop :=
  byKeyAsc exK histRel

instance : DecidableRel readRel := fun a b =>
  inferInstanceAs (Decidable (byKeyDesc dateK _ a b))

instance : DecidableRel histRel := fun a b =>
  inferInstanceAs (Decidable (byKeyDesc wK _ a b))

instance : DecidableRel bestsRel := fun a b =>
  inferInstanceAs (Decidable (byKeyAsc exK _ a b))

instance : IsTotal Row readRel :=
  inferInstanceAs (IsTotal Row (byKeyDesc dateK (byKeyDesc (fun r => r.id) trivRel)))

instance : IsTrans Row readRel :=
  inferInstanceAs (IsTrans Row (byKeyDesc dateK (byKeyDesc (fun r => r.id) trivRel)))

instance : IsTotal Row histRel :=
  inferInstanceAs
    (IsTotal Row (byKeyDesc wK (byKeyDesc dateK (byKeyDesc (fun r => r.id) trivRel))))

instance : IsTrans Row histRel :=
  inferInstanceAs
    (IsTrans Row (byKeyDesc wK (byKeyDesc dateK (byKeyDesc (fun r => r.id) trivRel))))

instance : IsRefl Row histRel :=
  inferInstanceAs
    (IsRefl Row (byKeyDesc wK (byKeyDesc dateK (byKeyDesc (fun r => r.id) trivRel))))

instance : IsTotal Row bestsRel := inferInstanceAs (IsTotal Row (byKeyAsc exK histRel))

instance : IsTrans Row bestsRel := inferInstanceAs (IsTrans Row (byKeyAsc exK histRel))

instance : IsRefl Row bestsRel := inferInstanceAs (IsRefl Row (byKeyAsc exK histRel))

/-- `GET /api/workouts`: every row, newest date first, ties newest id first. -/
def readAllWorkouts (s : Store) : List Row :=
  List.insertionSort readRel s.rows

/-- The rows satisfying `WHERE weight_kg IS NOT NULL`. -/
def weightRows (s : Store) : List Row :=
  s.rows.filter (fun r => r.weight_kg.isSome)

/-- `DISTINCT ON (exercise)`: keep the first row of each distinct `exercise`
value, skipping rows whose exercise was already emitted (`seen`). -/
def dedupByExercise (seen : List (Option String)) : List Row → List Row
  | [] => []
  | r :: rs =>
    if r.exercise ∈ seen then dedupByExercise seen rs
    else r :: dedupByExercise (r.exercise :: seen) rs

/-- `GET /api/bests`: weight-bearing rows ordered by
(exercise, weight_kg DESC, date DESC, id DESC), one row kept per exercise. -/
def bests (s : Store) : List Row :=
  dedupByExercise [] (List.insertionSort bestsRel (weightRows s))

/-- `GET /api/bests/:exercise`: rows of that exercise (exact string match on
the non-null column) with non-null weight, heaviest first. -/
def historyFor (s : Store) (name : String) : List Row :=
  List.insertionSort histRel
    (s.rows.filter (fun r => decide (r.exercise = some name) && r.weight_kg.isSome))

/-- The history handler's full response: `res.json(rows)` is HTTP 200. -/
def historyHandler (s : Store) (name : String) : Nat × List Row :=
  (200, historyFor s name)

/-- Decimal value of a digit string. -/
def digitsToNat (cs : List Char) : Nat :=
  cs.foldl (fun n c => 10 * n + (c.toNat - 48)) 0

/-- The store's integer input conversion for the `:id` parameter, which the
handlers pass through unparsed.  The external store accepts an optional sign
followed by decimal digits; on any other text the cast raises a store error
(surfaced by the handlers as HTTP 500, per the spec's `StoreError`). -/
def parseIntStr (str : String) : Option Int :=
  match str.toList with
  | [] => none
  | '-' :: rest =>
    if rest ≠ [] ∧ rest.all (fun c => c.isDigit) then some (-(digitsToNat rest : Int))
    else none
  | '+' :: rest =>
    if rest ≠ [] ∧ rest.all (fun c => c.isDigit) then some (digitsToNat rest : Int)
    else none
  | cs =>
    if cs.all (fun c => c.isDigit) then some (digitsToNat cs : Int)
    else none

/-- `PUT /api/workouts/:id` including the raw path parameter: an id string the
store cannot cast is a store error (500) and touches no row. -/
def putHandler (s : Store) (idStr : String) (b : Body) : (Nat × Option Row) × Store :=
  match parseIntStr idStr with
  | none => ((500, none), s)
  | some v => updateWorkout s v b

/-- `DELETE /api/workouts/:id` including the raw path parameter. -/
def deleteHandler (s : Store) (idStr : String) : (Nat × Bool) × Store :=
  match parseIntStr idStr with
  | none => ((500, false), s)
  | some v => deleteWorkout s v

/-- Store states reachable from an empty table (SERIAL sequences start at 1)
by any sequence of the three mutating endpoints. -/
inductive Reachable : Store → Prop
  | init : Reachable ⟨[], 1⟩
  | create (s : Store) (b : Body) (now : Nat) :
      Reachable s → Reachable (createWorkout s b now).2
  | update (s : Store) (i : Int) (b : Body) :
      Reachable s → Reachable (updateWorkout s i b).2
  | del (s : Store) (i : Int) :
      Reachable s → Reachable (deleteWorkout s i).2

/-- Sample row: a 100 kg squat. -/
def rowSquat100 : Row :=
  ⟨1, some "2024-01-01", some "Squat", some 100, some 5, none, 10⟩

/-- Sample row: a 120 kg squat on a later date. -/
def rowSquat120 : Row :=
  ⟨2, some "2024-01-02", some "Squat", some 120, some 3, none, 11⟩

/-- Sample row: a bench entry logged without a weight. -/
def rowBench : Row :=
  ⟨3, some "2024-01-03", some "Bench", none, some 8, some "tempo work", 12⟩

/-- A sample table holding the three rows above. -/
def sampleStore : Store :=
  ⟨[rowSquat100, rowSquat120, rowBench], 4⟩

/-! ## Helper lemmas -/

theorem falsyStr_eq_false {o : Option String} (h : falsyStr o = false) : o ≠ none := by
  cases o with
  | none => simp [falsyStr] at h
  | some s => simp

theorem coalesce_spec {α : Type} (new old : Option α) :
    (new = none → coalesce new old = old) ∧
    (new ≠ none → coalesce new old = new) ∧
    (old ≠ none → coalesce new old ≠ none) := by
  cases new <;> cases old <;> simp [coalesce]

/-- The rows of the store produced by a successful UPDATE. -/
theorem updateWorkout_found (s : Store) (i : Int) (b : Body)
    (h : ∃ r ∈ s.rows, (r.id : Int) = i) :
    (updateWorkout s i b).1.1 = 200 ∧
    (updateWorkout s i b).2.rows
      = s.rows.map (fun r => if (r.id : Int) = i then patchRow b r else r) := by
  obtain ⟨r₀, hr₀, hid⟩ := h
  have hmem : patchRow b r₀ ∈
      s.rows.map (fun r => if (r.id : Int) = i then patchRow b r else r) :=
    List.mem_map.mpr ⟨r₀, hr₀, by simp [hid]⟩
  have hsome : ((s.rows.map (fun r => if (r.id : Int) = i then patchRow b r else r)).find?
      (fun r => (r.id : Int) = i)).isSome = true := by
    refine List.find?_isSome.mpr ⟨patchRow b r₀, hmem, ?_⟩
    simpa [patchRow] using hid
  obtain ⟨r', hr'⟩ := Option.isSome_iff_exists.mp hsome
  simp only [updateWorkout]
  rw [hr']
  exact ⟨rfl, rfl⟩

/-! ## Claim theorems -/

/-- C3: a create request missing `date` or `exercise` (or carrying a falsy
value for either) fails with 400 and leaves the store untouched; otherwise
exactly one new row is appended, the store assigns `id` (the SERIAL counter)
and `created_at`, and the full created record is returned with 201. -/
theorem create_spec (s : Store) (b : Body) (now : Nat) :
    ((falsyStr b.date || falsyStr b.exercise) = true →
      createWorkout s b now = ((400, none), s)) ∧
    ((falsyStr b.date || falsyStr b.exercise) = false →
      ∃ r : Row,
        createWorkout s b now = ((201, some r), ⟨s.rows ++ [r], s.nextId + 1⟩) ∧
        r.id = s.nextId ∧ r.created_at = now ∧ r.date = b.date ∧
        r.exercise = b.exercise ∧ r.weight_kg = b.weight_kg ∧
        r.reps = b.reps ∧ r.note = b.note) := by
  constructor
  · intro h
    simp [createWorkout, h]
  · intro h
    refine ⟨⟨s.nextId, b.date, b.exercise, b.weight_kg, b.reps, b.note, now⟩,
      ?_, rfl, rfl, rfl, rfl, rfl, rfl, rfl⟩
    simp [createWorkout, h]

theorem create_spec_witness :
    createWorkout ⟨[], 1⟩ ⟨none, some "Squat", none, none, none⟩ 3
      = ((400, none), ⟨[], 1⟩) :=
  (create_spec ⟨[], 1⟩ ⟨none, some "Squat", none, none, none⟩ 3).1 (by decide)

/-- C4: an update aimed at an id no row carries answers 404 and returns the
store exactly as it was. -/
theorem update_missing_id (s : Store) (i : Int) (b : Body)
    (h : ∀ r ∈ s.rows, (r.id : Int) ≠ i) :
    updateWorkout s i b = ((404, none), s) := by
  have hfind : ((s.rows.map (fun r => if (r.id : Int) = i then patchRow b r else r)).find?
      (fun r => (r.id : Int) = i)) = none := by
    rw [List.find?_eq_none]
    intro x hx
    obtain ⟨r, hr, hxe⟩ := List.mem_map.mp hx
    rw [if_neg (h r hr)] at hxe
    subst hxe
    simpa using h r hr
  simp only [updateWorkout]
  rw [hfind]

theorem update_missing_id_witness :
    updateWorkout sampleStore 9 ⟨none, none, none, some 12, none⟩
      = ((404, none), sampleStore) :=
  update_missing_id sampleStore 9 ⟨none, none, none, some 12, none⟩ (by decide)

/-- C2: when the target row exists the update succeeds (200) and rewrites the
store row-by-row: the target row gets, for each of the five data fields, the
request value when it is present and its previous value when the request
value is absent or null; `id` and `created_at` are untouched, every other row
is unchanged, and a populated field can never be taken back to null. -/
theorem update_patch_semantics (s : Store) (i : Int) (b : Body)
    (h : ∃ r ∈ s.rows, (r.id : Int) = i) :
    (updateWorkout s i b).1.1 = 200 ∧
    (updateWorkout s i b).2.rows
      = s.rows.map (fun r => if (r.id : Int) = i then patchRow b r else r) ∧
    (∀ r : Row,
      (b.date = none → (patchRow b r).date = r.date) ∧
      (b.date ≠ none → (patchRow b r).date = b.date) ∧
      (r.date ≠ none → (patchRow b r).date ≠ none) ∧
      (b.exercise = none → (patchRow b r).exercise = r.exercise) ∧
      (b.exercise ≠ none → (patchRow b r).exercise = b.exercise) ∧
      (r.exercise ≠ none → (patchRow b r).exercise ≠ none) ∧
      (b.weight_kg = none → (patchRow b r).weight_kg = r.weight_kg) ∧
      (b.weight_kg ≠ none → (patchRow b r).weight_kg = b.weight_kg) ∧
      (r.weight_kg ≠ none → (patchRow b r).weight_kg ≠ none) ∧
      (b.reps = none → (patchRow b r).reps = r.reps) ∧
      (b.reps ≠ none → (patchRow b r).reps = b.reps) ∧
      (r.reps ≠ none → (patchRow b r).reps ≠ none) ∧
      (b.note = none → (patchRow b r).note = r.note) ∧
      (b.note ≠ none → (patchRow b r).note = b.note) ∧
      (r.note ≠ none → (patchRow b r).note ≠ none) ∧
      (patchRow b r).id = r.id ∧ (patchRow b r).created_at = r.created_at) ∧
    (∀ r ∈ s.rows, (r.id : Int) ≠ i → r ∈ (updateWorkout s i b).2.rows) := by
  obtain ⟨h200, hrows⟩ := updateWorkout_found s i b h
  refine ⟨h200, hrows, ?_, ?_⟩
  · intro r
    exact ⟨(coalesce_spec b.date r.date).1, (coalesce_spec b.date r.date).2.1,
      (coalesce_spec b.date r.date).2.2,
      (coalesce_spec b.exercise r.exercise).1, (coalesce_spec b.exercise r.exercise).2.1,
      (coalesce_spec b.exercise r.exercise).2.2,
      (coalesce_spec b.weight_kg r.weight_kg).1, (coalesce_spec b.weight_kg r.weight_kg).2.1,
      (coalesce_spec b.weight_kg r.weight_kg).2.2,
      (coalesce_spec b.reps r.reps).1, (coalesce_spec b.reps r.reps).2.1,
      (coalesce_spec b.reps r.reps).2.2,
      (coalesce_spec b.note r.note).1, (coalesce_spec b.note r.note).2.1,
      (coalesce_spec b.note r.note).2.2, rfl, rfl⟩
  · intro r hr hne
    rw [hrows]
    exact List.mem_map.mpr ⟨r, hr, by simp [hne]⟩

theorem update_patch_semantics_witness :
    (updateWorkout sampleStore 1 ⟨none, none, none, some 12, none⟩).1.1 = 200 :=
  (update_patch_semantics sampleStore 1 ⟨none, none, none, some 12, none⟩
    ⟨rowSquat100, by decide, by decide⟩).1

/-- C10: an id path parameter the store cannot cast to an integer makes both
the update and the delete handler fail as a store error (500), not 404, and
leave the store unchanged. -/
theorem malformed_id_store_error (s : Store) (idStr : String) (b : Body)
    (h : parseIntStr idStr = none) :
    putHandler s idStr b = ((500, none), s) ∧
    deleteHandler s idStr = ((500, false), s) := by
  constructor <;> simp [putHandler, deleteHandler, h]

theorem malformed_id_store_error_witness :
    putHandler sampleStore "12abc" ⟨none, none, none, some 12, none⟩
        = ((500, none), sampleStore) ∧
      deleteHandler sampleStore "12abc" = ((500, false), sampleStore) :=
  malformed_id_store_error sampleStore "12abc" ⟨none, none, none, some 12, none⟩
    (by decide)

/-- C8: deleting an existing id removes exactly the rows with that id and
answers 200 with `{ok:true}`; the id then appears in no subsequent read, and
a second delete of the same id (like any delete of a missing id) answers 404
and changes nothing. -/
theorem delete_spec (s : Store) (i : Int) :
    ((∃ r ∈ s.rows, (r.id : Int) = i) →
      deleteWorkout s i
          = ((200, true), ⟨s.rows.filter (fun r => (r.id : Int) ≠ i), s.nextId⟩) ∧
      (∀ r ∈ (deleteWorkout s i).2.rows, (r.id : Int) ≠ i) ∧
      (∀ r ∈ readAllWorkouts (deleteWorkout s i).2, (r.id : Int) ≠ i) ∧
      deleteWorkout (deleteWorkout s i).2 i = ((404, false), (deleteWorkout s i).2)) ∧
    ((∀ r ∈ s.rows, (r.id : Int) ≠ i) → deleteWorkout s i = ((404, false), s)) := by
  have hmiss : ∀ s' : Store, (∀ r ∈ s'.rows, (r.id : Int) ≠ i) →
      deleteWorkout s' i = ((404, false), s') := by
    intro s' h
    have hnone : (s'.rows.any (fun r => (r.id : Int) = i)) = false := by
      refine List.any_eq_false.mpr ?_
      intro r hr
      simpa using h r hr
    simp only [deleteWorkout, hnone]
    rfl
  constructor
  · intro h
    have hany : (s.rows.any (fun r => (r.id : Int) = i)) = true := by
      obtain ⟨r, hr, hid⟩ := h
      exact List.any_eq_true.mpr ⟨r, hr, by simpa using hid⟩
    have heq : deleteWorkout s i
        = ((200, true), ⟨s.rows.filter (fun r => (r.id : Int) ≠ i), s.nextId⟩) := by
      simp only [deleteWorkout, hany]
      rfl
    have hgone : ∀ r ∈ (deleteWorkout s i).2.rows, (r.id : Int) ≠ i := by
      rw [heq]
      intro r hr
      simpa using (List.mem_filter.mp hr).2
    refine ⟨heq, hgone, ?_, hmiss _ hgone⟩
    intro r hr
    exact hgone r ((List.mem_insertionSort readRel).mp hr)
  · exact hmiss s

theorem delete_spec_witness :
    deleteWorkout sampleStore 2
      = ((200, true), ⟨[rowSquat100, rowBench], 4⟩) := by
  have h := (delete_spec sampleStore 2).1 ⟨rowSquat120, by decide, by decide⟩
  rw [h.1]
  rfl

/-- C9: in every store state reachable through the three mutating endpoints,
every row has a non-null `date` and a non-null `exercise` — create validates
both before inserting, and the update's COALESCE semantics never writes null
over a populated column. -/
theorem date_exercise_never_null (s : Store) (hs : Reachable s) :
    ∀ r ∈ s.rows, r.date ≠ none ∧ r.exercise ≠ none := by
  induction hs with
  | init =>
    intro r hr
    cases hr
  | create s b now _hs ih =>
    intro r hr
    by_cases hv : (falsyStr b.date || falsyStr b.exercise) = true
    · rw [createWorkout] at hr
      rw [if_pos hv] at hr
      exact ih r hr
    · rw [createWorkout] at hr
      rw [if_neg hv] at hr
      rcases List.mem_append.mp hr with hmem | hmem
      · exact ih r hmem
      · have hb : falsyStr b.date = false ∧ falsyStr b.exercise = false := by
          simpa using hv
        rcases List.mem_singleton.mp hmem with rfl
        exact ⟨falsyStr_eq_false hb.1, falsyStr_eq_false hb.2⟩
  | update s i b _hs ih =>
    intro r hr
    revert hr
    simp only [updateWorkout]
    cases hfind : ((s.rows.map (fun r => if (r.id : Int) = i then patchRow b r else r)).find?
        (fun r => (r.id : Int) = i)) with
    | none =>
      intro hr
      exact ih r hr
    | some r' =>
      intro hr
      obtain ⟨r₀, hr₀, hre⟩ := List.mem_map.mp hr
      obtain ⟨hd, he⟩ := ih r₀ hr₀
      by_cases hid : (r₀.id : Int) = i
      · rw [if_pos hid] at hre
        subst hre
        exact ⟨(coalesce_spec b.date r₀.date).2.2 hd,
          (coalesce_spec b.exercise r₀.exercise).2.2 he⟩
      · rw [if_neg hid] at hre
        subst hre
        exact ⟨hd, he⟩
  | del s i _hs ih =>
    intro r hr
    revert hr
    simp only [deleteWorkout]
    by_cases hany : (s.rows.any (fun r => (r.id : Int) = i)) = true
    · rw [if_pos hany]
      intro hr
      exact ih r (List.mem_filter.mp hr).1
    · rw [if_neg hany]
      intro hr
      exact ih r hr

theorem date_exercise_never_null_witness :
    rowSquat100.date ≠ none ∧ rowSquat100.exercise ≠ none :=
  date_exercise_never_null
    (createWorkout ⟨[], 1⟩ ⟨some "2024-01-01", some "Squat", some 100, some 5, none⟩ 10).2
    (Reachable.create _ _ _ Reachable.init) rowSquat100 (by decide)

/-- C5: read-all returns exactly the stored records (a permutation — nothing
filtered, nothing paginated), pairwise ordered by date descending with id
descending inside equal dates; in particular a row appearing before another
never has the smaller date key. -/
theorem read_all_ordered (s : Store) :
    (readAllWorkouts s).Perm s.rows ∧
    (readAllWorkouts s).Pairwise readRel ∧
    ∀ a b : Row, [a, b].Sublist (readAllWorkouts s) → dateK b ≤ dateK a := by
  refine ⟨List.perm_insertionSort readRel s.rows,
    List.sorted_insertionSort readRel s.rows, ?_⟩
  intro a b hsub
  have hp : List.Pairwise readRel [a, b] :=
    List.Pairwise.sublist hsub (List.sorted_insertionSort readRel s.rows)
  have hab : readRel a b := (List.pairwise_cons.mp hp).1 b (by simp)
  rcases hab with hlt | ⟨heq, _⟩
  · exact le_of_lt hlt
  · exact le_of_eq heq.symm

theorem read_all_ordered_witness :
    dateK rowSquat100 ≤ dateK rowSquat120 :=
  (read_all_ordered sampleStore).2.2 rowSquat120 rowSquat100 (by decide)

/-- C6: exercise-history answers 200 with exactly the rows whose `exercise`
equals the path parameter (exact, case-sensitive string equality) and whose
`weight_kg` is not null, ordered by (weight_kg DESC, date DESC, id DESC);
when nothing matches the result is the empty array, not an error. -/
theorem history_spec (s : Store) (name : String) :
    (historyHandler s name).1 = 200 ∧
    (historyFor s name).Perm
      (s.rows.filter (fun r => decide (r.exercise = some name) && r.weight_kg.isSome)) ∧
    (historyFor s name).Pairwise histRel ∧
    (∀ r ∈ historyFor s name, r.exercise = some name ∧ r.weight_kg ≠ none) ∧
    ((∀ r ∈ s.rows, ¬(r.exercise = some name ∧ r.weight_kg ≠ none)) →
      historyFor s name = []) := by
  refine ⟨rfl, List.perm_insertionSort histRel _, List.sorted_insertionSort histRel _,
    ?_, ?_⟩
  · intro r hr
    have hm := List.mem_filter.mp ((List.mem_insertionSort histRel).mp hr)
    have hm2 := hm.2
    rw [Bool.and_eq_true] at hm2
    obtain ⟨hex, hw⟩ := hm2
    refine ⟨of_decide_eq_true hex, ?_⟩
    intro hc
    rw [hc] at hw
    simp at hw
  · intro h
    have hfil : s.rows.filter
        (fun r => decide (r.exercise = some name) && r.weight_kg.isSome) = [] := by
      refine List.filter_eq_nil_iff.mpr ?_
      intro r hr
      intro hc
      rw [Bool.and_eq_true] at hc
      obtain ⟨hex, hw⟩ := hc
      refine h r hr ⟨of_decide_eq_true hex, ?_⟩
      intro hn
      rw [hn] at hw
      simp at hw
    rw [historyFor, hfil]
    rfl

theorem history_spec_witness :
    historyFor sampleStore "Deadlift" = [] :=
  (history_spec sampleStore "Deadlift").2.2.2.2 (by decide)

/-- C7 is refuted as stated: a record created without `weight_kg` (201
returned) is invisible to exercise-history for its own exercise — the
read-back yields no record at all instead of the submitted values. -/
theorem create_roundtrip_counterexample :
    (createWorkout ⟨[], 1⟩ ⟨some "2024-01-01", some "Squat", none, none, none⟩ 0).1.1
        = 201 ∧
    historyFor
        (createWorkout ⟨[], 1⟩ ⟨some "2024-01-01", some "Squat", none, none, none⟩ 0).2
        "Squat" = [] := by
  exact ⟨rfl, rfl⟩

/-- C7 amended: every successfully created record reads back via read-all
with exactly the submitted field values (nulls preserved for omitted
fields); it reads back via exercise-history for its exercise provided its
`weight_kg` was submitted non-null. -/
theorem create_roundtrip (s : Store) (b : Body) (now : Nat) (r : Row)
    (h : (createWorkout s b now).1.2 = some r) :
    r ∈ readAllWorkouts (createWorkout s b now).2 ∧
    r.date = b.date ∧ r.exercise = b.exercise ∧ r.weight_kg = b.weight_kg ∧
    r.reps = b.reps ∧ r.note = b.note ∧
    (∀ ex : String, b.exercise = some ex → b.weight_kg ≠ none →
      r ∈ historyFor (createWorkout s b now).2 ex) := by
  by_cases hv : (falsyStr b.date || falsyStr b.exercise) = true
  · rw [createWorkout, if_pos hv] at h
    cases h
  · rw [createWorkout, if_neg hv] at h
    have hr : r = ⟨s.nextId, b.date, b.exercise, b.weight_kg, b.reps, b.note, now⟩ :=
      (Option.some.inj h).symm
    have hrows : (createWorkout s b now).2.rows
        = s.rows ++ [⟨s.nextId, b.date, b.exercise, b.weight_kg, b.reps, b.note, now⟩] := by
      rw [createWorkout, if_neg hv]
    subst hr
    refine ⟨?_, rfl, rfl, rfl, rfl, rfl, ?_⟩
    · refine (List.mem_insertionSort readRel).mpr ?_
      rw [hrows]
      exact List.mem_append_right _ (List.mem_singleton.mpr rfl)
    · intro ex hex hw
      refine (List.mem_insertionSort histRel).mpr ?_
      refine List.mem_filter.mpr ⟨?_, ?_⟩
      · rw [hrows]
        exact List.mem_append_right _ (List.mem_singleton.mpr rfl)
      · cases hbw : b.weight_kg with
        | none => exact absurd hbw hw
        | some w => simp [hex, hbw]

theorem create_roundtrip_witness :
    rowSquat100 ∈ readAllWorkouts
      (createWorkout ⟨[], 1⟩ ⟨some "2024-01-01", some "Squat", some 100, some 5, none⟩ 10).2 :=
  (create_roundtrip ⟨[], 1⟩ ⟨some "2024-01-01", some "Squat", some 100, some 5, none⟩ 10
    rowSquat100 (by decide)).1

/-- Everything `dedupByExercise` keeps comes from the input list and carries
an exercise outside `seen`. -/
theorem mem_dedupByExercise {x : Row} :
    ∀ (l : List Row) (seen : List (Option String)),
      x ∈ dedupByExercise seen l → x ∈ l ∧ x.exercise ∉ seen := by
  intro l
  induction l with
  | nil =>
    intro seen hx
    cases hx
  | cons a rest ih =>
    intro seen hx
    by_cases hseen : a.exercise ∈ seen
    · simp only [dedupByExercise] at hx
      rw [if_pos hseen] at hx
      obtain ⟨h1, h2⟩ := ih seen hx
      exact ⟨List.mem_cons_of_mem a h1, h2⟩
    · simp only [dedupByExercise] at hx
      rw [if_neg hseen] at hx
      rcases List.mem_cons.mp hx with rfl | hx'
      · exact ⟨List.mem_cons_self _ _, hseen⟩
      · obtain ⟨h1, h2⟩ := ih (a.exercise :: seen) hx'
        exact ⟨List.mem_cons_of_mem a h1, fun hc => h2 (List.mem_cons_of_mem _ hc)⟩

/-- In a `bestsRel`-sorted list, `dedupByExercise` keeps exactly one row per
represented exercise, and that row `bestsRel`-precedes every row of its
group. -/
theorem dedup_first :
    ∀ (l : List Row) (seen : List (Option String)), List.Pairwise bestsRel l →
      ∀ e : Option String, e ∉ seen →
        ∀ r₀ ∈ l, r₀.exercise = e →
          ∃ b, (dedupByExercise seen l).filter (fun x => decide (x.exercise = e)) = [b] ∧
            b ∈ l ∧ b.exercise = e ∧ ∀ r ∈ l, r.exercise = e → bestsRel b r := by
  intro l
  induction l with
  | nil =>
    intro seen _ e _ r₀ hr₀
    cases hr₀
  | cons a rest ih =>
    intro seen hpw e he r₀ hr₀ hre
    obtain ⟨ha, hpw'⟩ := List.pairwise_cons.mp hpw
    by_cases hseen : a.exercise ∈ seen
    · have hae : a.exercise ≠ e := fun hc => he (hc ▸ hseen)
      have hr₀' : r₀ ∈ rest := by
        rcases List.mem_cons.mp hr₀ with rfl | hm
        · exact absurd hre hae
        · exact hm
      obtain ⟨b, h1, h2, h3, h4⟩ := ih seen hpw' e he r₀ hr₀' hre
      refine ⟨b, ?_, List.mem_cons_of_mem a h2, h3, ?_⟩
      · simp only [dedupByExercise]
        rw [if_pos hseen]
        exact h1
      · intro r hr hrE
        rcases List.mem_cons.mp hr with rfl | hr'
        · exact absurd hrE hae
        · exact h4 r hr' hrE
    · by_cases hae : a.exercise = e
      · refine ⟨a, ?_, List.mem_cons_self a rest, hae, ?_⟩
        · simp only [dedupByExercise]
          rw [if_neg hseen]
          rw [List.filter_cons_of_pos (by simpa using hae)]
          have hnil : (dedupByExercise (a.exercise :: seen) rest).filter
              (fun x => decide (x.exercise = e)) = [] := by
            refine List.filter_eq_nil_iff.mpr ?_
            intro x hx
            have h2 := (mem_dedupByExercise rest (a.exercise :: seen) hx).2
            simp only [decide_eq_true_eq]
            intro hc
            exact h2 (by rw [hc, ← hae]; exact List.mem_cons_self _ _)
          rw [hnil]
        · intro r hr hrE
          rcases List.mem_cons.mp hr with rfl | hr'
          · exact IsRefl.refl (r := bestsRel) r
          · exact ha r hr'
      · have hr₀' : r₀ ∈ rest := by
          rcases List.mem_cons.mp hr₀ with rfl | hm
          · exact absurd hre hae
          · exact hm
        have he' : e ∉ a.exercise :: seen := by
          intro hc
          rcases List.mem_cons.mp hc with hc1 | hc2
          · exact hae hc1.symm
          · exact he hc2
        obtain ⟨b, h1, h2, h3, h4⟩ := ih (a.exercise :: seen) hpw' e he' r₀ hr₀' hre
        refine ⟨b, ?_, List.mem_cons_of_mem a h2, h3, ?_⟩
        · simp only [dedupByExercise]
          rw [if_neg hseen]
          rw [List.filter_cons_of_neg (by simpa using hae)]
          exact h1
        · intro r hr hrE
          rcases List.mem_cons.mp hr with rfl | hr'
          · exact absurd hrE hae
          · exact h4 r hr' hrE

/-- Rows of the same exercise compare under `bestsRel` exactly as under
`histRel` (the exercise keys tie). -/
theorem histRel_of_bestsRel {a c : Row} (he : a.exercise = c.exercise)
    (h : bestsRel a c) : histRel a c := by
  rcases h with hlt | ⟨_, ht⟩
  · exfalso
    have hk : exK a = exK c := by
      unfold exK
      rw [he]
    rw [hk] at hlt
    exact lt_irrefl _ hlt
  · exact ht

/-- C1: personal-bests draws only from the rows with non-null weight, and for
every exercise represented there it contains exactly one row — a row of that
group that precedes every group member under
(weight_kg DESC, date DESC, id DESC), i.e. the heaviest, ties to the most
recent date, then to the highest id. -/
theorem bests_one_max_per_exercise (s : Store) :
    (∀ x ∈ bests s, x ∈ weightRows s) ∧
    ∀ e : Option String, (∃ r ∈ weightRows s, r.exercise = e) →
      ∃ b, (bests s).filter (fun x => decide (x.exercise = e)) = [b] ∧
        b ∈ weightRows s ∧ b.exercise = e ∧
        ∀ r ∈ weightRows s, r.exercise = e → histRel b r := by
  constructor
  · intro x hx
    have h1 := (mem_dedupByExercise (List.insertionSort bestsRel (weightRows s)) [] hx).1
    exact (List.mem_insertionSort bestsRel).mp h1
  · rintro e ⟨r₀, hr₀, hre⟩
    have hsorted : List.Pairwise bestsRel (List.insertionSort bestsRel (weightRows s)) :=
      List.sorted_insertionSort bestsRel (weightRows s)
    obtain ⟨b, h1, h2, h3, h4⟩ := dedup_first (List.insertionSort bestsRel (weightRows s))
      [] hsorted e (by simp) r₀ ((List.mem_insertionSort bestsRel).mpr hr₀) hre
    refine ⟨b, h1, (List.mem_insertionSort bestsRel).mp h2, h3, ?_⟩
    intro r hr hrE
    exact histRel_of_bestsRel (h3.trans hrE.symm)
      (h4 r ((List.mem_insertionSort bestsRel).mpr hr) hrE)

theorem bests_one_max_per_exercise_witness : histRel rowSquat120 rowSquat100 := by
  obtain ⟨b, hf, _hb, _he, hmax⟩ :=
    (bests_one_max_per_exercise sampleStore).2 (some "Squat")
      ⟨rowSquat100, by decide, by decide⟩
  have hconc : (bests sampleStore).filter (fun x => decide (x.exercise = some "Squat"))
      = [rowSquat120] := by decide
  rw [hconc] at hf
  injection hf with h1 _
  have hmax' := hmax rowSquat100 (by decide) (by decide)
  rwa [← h1] at hmax'
